import Mathlib

/-!
Shallow embedding of the flashcards-api data layer
(`internal/data/flashcards.go`, `cmd/api` handlers) together with proofs
about the properties its specification states.

The database is modelled as an explicit state value: the `flashcards`
table and the `user_flashcards` progress table are lists of rows, and
each SQL statement of the source becomes a pure function from state to
state.  `NOW()` is passed in as an explicit clock value, and the
`BIGSERIAL` id sequence is carried as `nextId`.  Steps of a SQL
transaction operate on a transaction-local copy of the state; an error
before `Commit` discards that copy (the deferred `Rollback` of the
source), which is modelled by returning the original state.
-/

namespace Flashcards

/-- The flashcard content variants (Go: the `FlashcardContent` interface
with its three implementations `QAContent`, `MCQContent`, `YesNoContent`). -/
structure MCQContent where
  options : List String
  correctIndex : Int
  justification : String
deriving DecidableEq, Repr

inductive FlashcardContent
  | qa (answer : String) (justification : String)
  | mcq (c : MCQContent)
  | yesNo (correct : Bool) (justification : String)
deriving DecidableEq, Repr

/-- The in-memory `Flashcard` struct of the Go source (the `data` package).
`FlashcardType` is a string type in Go, kept as `String` here; `sectionLabel`
embeds the Go field `Section` (whose name is a Lean keyword). -/
structure Flashcard where
  id : Int
  sectionLabel : Option String
  sectionType : Option String
  sourceFile : Option String
  text : String
  question : String
  ftype : String
  content : FlashcardContent
  categories : List String
  version : Int
  createdAt : Nat
  correctCount : Int
  status : String
deriving DecidableEq, Repr

/-- A stored row of the `flashcards` table. -/
structure FlashcardRow where
  id : Int
  sectionLabel : Option String
  sectionType : Option String
  sourceFile : Option String
  text : String
  question : String
  ftype : String
  content : FlashcardContent
  categories : List String
  version : Int
  createdAt : Nat
deriving DecidableEq, Repr

/-- A stored row of the `user_flashcards` table. -/
structure ProgressRow where
  userId : Int
  flashcardId : Int
  correctCount : Int
  status : String
  lastReviewedAt : Nat
deriving DecidableEq, Repr

/-- The database state: both tables plus the id sequence. -/
structure DB where
  flashcards : List FlashcardRow
  progress : List ProgressRow
  nextId : Int
deriving DecidableEq, Repr

/-- Error kinds of the `data` package (`ErrRecordNotFound`,
`ErrEditConflict`) plus a generic store failure. -/
inductive DbErr
  | recordNotFound
  | editConflict
  | storeFailure
deriving DecidableEq, Repr

/-- `SELECT ... FROM flashcards WHERE id = $1` (first matching row). -/
def findCard (db : DB) (id : Int) : Option FlashcardRow :=
  db.flashcards.find? (fun r => r.id == id)

/-- Lookup on the `user_flashcards` primary key `(user_id, flashcard_id)`. -/
def findProgress (db : DB) (userId cardId : Int) : Option ProgressRow :=
  db.progress.find? (fun p => p.userId == userId && p.flashcardId == cardId)

/-- `(db.flashcards)`' ids are pairwise distinct — the `PRIMARY KEY`
constraint of the `flashcards` table. -/
def cardIdsNodup (db : DB) : Prop :=
  (db.flashcards.map (fun r => r.id)).Nodup

/-- The `(user_id, flashcard_id)` keys of `user_flashcards` are pairwise
distinct — its composite `PRIMARY KEY` constraint. -/
def progressKeysNodup (db : DB) : Prop :=
  (db.progress.map (fun p => (p.userId, p.flashcardId))).Nodup

instance : DecidablePred cardIdsNodup := fun db => by
  unfold cardIdsNodup; infer_instance

instance : DecidablePred progressKeysNodup := fun db => by
  unfold progressKeysNodup; infer_instance

/-! ## ProgressTracker: FlashcardModel.IncrementCorrectCount / ResetCorrectCount -/

/-- The `DO UPDATE SET` clause of `IncrementCorrectCount`: increment the
count, refresh `last_reviewed_at`, and set `status` to `mastered` exactly
when the post-increment count reaches 5. -/
def incRow (now : Nat) (p : ProgressRow) : ProgressRow :=
  { p with
    correctCount := p.correctCount + 1
    lastReviewedAt := now
    status := if p.correctCount + 1 ≥ 5 then "mastered" else "in_progress" }

/-- `FlashcardModel.IncrementCorrectCount`: `INSERT ... VALUES ($1,$2,1,NOW(),
'in_progress') ON CONFLICT (user_id, flashcard_id) DO UPDATE SET ... WHERE
user_flashcards.correct_count < 5`.  A conflict arises exactly when a row
with the primary key already exists; the `WHERE` clause restricts the
update to rows whose stored count is still below the threshold. -/
def incrementCorrectCount (db : DB) (id userId : Int) (now : Nat) : DB :=
  match findProgress db userId id with
  | none =>
      { db with progress := db.progress ++ [⟨userId, id, 1, "in_progress", now⟩] }
  | some _ =>
      { db with progress := db.progress.map (fun p =>
          if p.userId == userId && p.flashcardId == id && p.correctCount < 5 then
            incRow now p
          else p) }

/-- `FlashcardModel.ResetCorrectCount`: `INSERT ... VALUES ($1,$2,0,NOW(),
'not_started') ON CONFLICT (user_id, flashcard_id) DO UPDATE SET
correct_count = 0, last_reviewed_at = NOW(), status = 'not_started'`. -/
def resetCorrectCount (db : DB) (id userId : Int) (now : Nat) : DB :=
  match findProgress db userId id with
  | none =>
      { db with progress := db.progress ++ [⟨userId, id, 0, "not_started", now⟩] }
  | some _ =>
      { db with progress := db.progress.map (fun p =>
          if p.userId == userId && p.flashcardId == id then
            { p with correctCount := 0, status := "not_started", lastReviewedAt := now }
          else p) }

/-! ## FlashcardStore: Insert / Update / Delete -/

/-- The row written by the `INSERT INTO flashcards` statement: the id comes
from the `BIGSERIAL` sequence, `created_at` is `time.Now()`, and every other
column — the `version` column included — is the value of the corresponding
field of the passed flashcard. -/
def rowOfFlashcard (f : Flashcard) (id : Int) (now : Nat) : FlashcardRow :=
  ⟨id, f.sectionLabel, f.sectionType, f.sourceFile, f.text, f.question,
    f.ftype, f.content, f.categories, f.version, now⟩

/-- `FlashcardModel.Insert`: one transaction inserting the card row and the
owner's seed progress row `(user_id, flashcard_id, 0, 'not_started', NOW())`.
The two Boolean arguments inject a store failure into the respective
statement; any failure before `Commit` triggers the deferred `Rollback`,
so the published state is the original `db`. -/
def insert (db : DB) (f : Flashcard) (userId : Int) (now : Nat)
    (cardInsertFails progressInsertFails : Bool) : DB × Except DbErr Flashcard :=
  if cardInsertFails then (db, .error .storeFailure)
  else
    let row := rowOfFlashcard f db.nextId now
    let tx1 : DB := { db with flashcards := db.flashcards ++ [row], nextId := db.nextId + 1 }
    if progressInsertFails then (db, .error .storeFailure)
    else
      ({ tx1 with progress := tx1.progress ++ [⟨userId, row.id, 0, "not_started", now⟩] },
        .ok { f with id := row.id, createdAt := now, version := row.version })

/-- The `UPDATE flashcards SET ... WHERE id = $9 AND version = $10` statement
as a per-row function: a row matching both the id and the supplied version
receives the new column values and `version = version + 1`; any other row is
untouched. -/
def updateRow (f : Flashcard) (r : FlashcardRow) : FlashcardRow :=
  if r.id == f.id && r.version == f.version then
    { r with
      sectionLabel := f.sectionLabel
      sectionType := f.sectionType
      sourceFile := f.sourceFile
      text := f.text
      question := f.question
      ftype := f.ftype
      content := f.content
      categories := f.categories
      version := r.version + 1 }
  else r

/-- `FlashcardModel.Update`: the conditional `UPDATE ... RETURNING version`.
When the statement touches no row (`sql.ErrNoRows` from `Scan`), the method
returns `ErrEditConflict`; otherwise the new version of the touched row is
returned. -/
def update (db : DB) (f : Flashcard) : DB × Except DbErr Int :=
  match db.flashcards.filter (fun r => r.id == f.id && r.version == f.version) with
  | [] => ({ db with flashcards := db.flashcards.map (updateRow f) }, .error .editConflict)
  | r :: _ => ({ db with flashcards := db.flashcards.map (updateRow f) }, .ok (r.version + 1))

/-- A sequence of `Update` calls, all of which succeed (`none` when any call
returns an error). -/
def applyUpdates (db : DB) (ups : List Flashcard) : Option DB :=
  match ups with
  | [] => some db
  | u :: rest =>
      match update db u with
      | (db', Except.ok _) => applyUpdates db' rest
      | (_, Except.error _) => none

/-- `FlashcardModel.Delete`: rejects ids below 1, then in one transaction
deletes the card's progress rows, deletes the card, and — when the card
`DELETE` affected no row — returns `ErrRecordNotFound` before `Commit`, so
the deferred `Rollback` discards the progress deletion as well.  The two
Boolean arguments inject store failures into the two statements. -/
def deleteCard (db : DB) (id : Int) (progressDeleteFails cardDeleteFails : Bool) :
    DB × Except DbErr Unit :=
  if id < 1 then (db, .error .recordNotFound)
  else if progressDeleteFails then (db, .error .storeFailure)
  else
    let tx1 : DB := { db with progress := db.progress.filter (fun p => !(p.flashcardId == id)) }
    if cardDeleteFails then (db, .error .storeFailure)
    else
      let affected := (tx1.flashcards.filter (fun r => r.id == id)).length
      let tx2 : DB := { tx1 with flashcards := tx1.flashcards.filter (fun r => !(r.id == id)) }
      if affected == 0 then (db, .error .recordNotFound)
      else (tx2, .ok ())

/-! ## QueryEngine: FlashcardModel.GetAll -/

/-- `LOWER(a) = LOWER(b)`. -/
def lowerEq (a b : String) : Bool :=
  a.toLower == b.toLower

/-- The token list of the `'simple'` text-search configuration: lowercase,
split on non-alphanumeric characters, drop empty lexemes. -/
def tokens (s : String) : List String :=
  (s.toLower.split (fun ch => !ch.isAlphanum)).filter (fun t => !(t == ""))

/-- `(to_tsvector('simple', f.section) @@ plainto_tsquery('simple', $2) OR
$2 = '')`: an empty tsquery matches nothing, otherwise every query token
must occur among the section's tokens; a `NULL` section yields `NULL`
(treated as false) unless the filter string is empty. -/
def sectionMatches (sec : Option String) (q : String) : Bool :=
  (match sec with
   | some s => !(tokens q).isEmpty && (tokens q).all (fun t => (tokens s).contains t)
   | none => false) || q == ""

/-- `(LOWER(column) = LOWER($n) OR $n = '')` for the section-type and
source-file columns (`NULL` compares as false). -/
def scalarMatches (v : Option String) (q : String) : Bool :=
  (match v with
   | some s => lowerEq s q
   | none => false) || q == ""

/-- `(f.categories @> $5 OR $5 = '{}')`: array containment — the card's
category array must contain every requested label. -/
def categoriesMatch (cardCats filterCats : List String) : Bool :=
  filterCats.all (fun cat => cardCats.contains cat) || filterCats.isEmpty

/-- `COALESCE(uf.status, 'not_started')` over the
`LEFT JOIN user_flashcards uf ON f.id = uf.flashcard_id AND uf.user_id = $1`. -/
def joinedStatus (db : DB) (userId cardId : Int) : String :=
  match findProgress db userId cardId with
  | some p => p.status
  | none => "not_started"

/-- `COALESCE(uf.correct_count, 0)` over the same join. -/
def joinedCount (db : DB) (userId cardId : Int) : Int :=
  match findProgress db userId cardId with
  | some p => p.correctCount
  | none => 0

/-- The `WHERE` clause of `GetAll`.  The final conjunct is modelled from the
spec: the data-layer `hide_mastered` filter named by `listFlashcardsHandler`
is not under src/, and the spec says it "excludes cards whose joined
progress status is `mastered` for the requesting user". -/
def rowMatches (db : DB) (userId : Int) (sq stq sfq : String)
    (cats : List String) (hideMastered : Bool) (r : FlashcardRow) : Bool :=
  sectionMatches r.sectionLabel sq &&
  scalarMatches r.sectionType stq &&
  scalarMatches r.sourceFile sfq &&
  categoriesMatch r.categories cats &&
  (!hideMastered || !(joinedStatus db userId r.id == "mastered"))

/-- The matching set of a listing query, in table order. -/
def matchedRows (db : DB) (userId : Int) (sq stq sfq : String)
    (cats : List String) (hideMastered : Bool) : List FlashcardRow :=
  db.flashcards.filter (rowMatches db userId sq stq sfq cats hideMastered)

/-- Order on optional strings used by the section/file sort columns. -/
def optStrLe : Option String → Option String → Bool
  | none, _ => true
  | some _, none => false
  | some a, some b => a ≤ b

/-- Turns a primary column comparison into the total `ORDER BY col dir,
f.id ASC` comparison: ties on the column are broken by ascending id. -/
def tieById (primLe : FlashcardRow → FlashcardRow → Bool) (a b : FlashcardRow) : Bool :=
  if primLe a b then (if primLe b a then a.id ≤ b.id else true) else false

/-- Modelled from the spec: `Filters.sortColumn`/`sortDirection` (the
`filters.go` of the repository is not under src/).  The spec fixes the
allow-list `id`, `section`, `file`, their descending forms, and `random`;
every non-random key orders by its column and breaks ties by id ascending. -/
def sortLe (sort : String) : FlashcardRow → FlashcardRow → Bool :=
  if sort == "id" then fun a b => a.id ≤ b.id
  else if sort == "-id" then tieById (fun a b => b.id ≤ a.id)
  else if sort == "section" then tieById (fun a b => optStrLe a.sectionLabel b.sectionLabel)
  else if sort == "-section" then tieById (fun a b => optStrLe b.sectionLabel a.sectionLabel)
  else if sort == "file" then tieById (fun a b => optStrLe a.sourceFile b.sourceFile)
  else if sort == "-file" then tieById (fun a b => optStrLe b.sourceFile a.sourceFile)
  else fun a b => a.id ≤ b.id

def insertByLe (le : FlashcardRow → FlashcardRow → Bool) (x : FlashcardRow) :
    List FlashcardRow → List FlashcardRow
  | [] => [x]
  | y :: ys => if le x y then x :: y :: ys else y :: insertByLe le x ys

def sortWith (le : FlashcardRow → FlashcardRow → Bool) :
    List FlashcardRow → List FlashcardRow
  | [] => []
  | x :: xs => insertByLe le x (sortWith le xs)

/-- The `ORDER BY` of `GetAll`.  `random` has no determinism contract in the
spec and is modelled as keeping table order. -/
def sortRows (sort : String) (l : List FlashcardRow) : List FlashcardRow :=
  if sort == "random" then l else sortWith (sortLe sort) l

/-- Modelled from the spec: the request-scoped `Filters` value (the
`filters.go` of the repository is not under src/) — page number, page size
and sort key. -/
structure Filters where
  page : Nat
  pageSize : Nat
  sort : String
deriving DecidableEq, Repr

/-- Modelled from the spec: the pagination metadata — total matching record
count, current page, page size and last page number. -/
structure Metadata where
  currentPage : Nat
  pageSize : Nat
  lastPage : Nat
  totalRecords : Nat
deriving DecidableEq, Repr

/-- Modelled from the spec: `calculateMetadata` (not under src/) — last page
is `ceil(total / pageSize)`, and the metadata is all-zero when the total
is 0. -/
def calculateMetadata (totalRecords page pageSize : Nat) : Metadata :=
  if totalRecords == 0 then ⟨0, 0, 0, 0⟩
  else ⟨page, pageSize, (totalRecords + pageSize - 1) / pageSize, totalRecords⟩

/-- Modelled from the spec: `Filters.limit` — the page size. -/
def limitOf (f : Filters) : Nat := f.pageSize

/-- Modelled from the spec: `Filters.offset` — results for page `p` of size
`s` are the matched rows at positions `[(p-1)*s, (p-1)*s + s)`. -/
def offsetOf (f : Filters) : Nat := (f.page - 1) * f.pageSize

/-- One element of `GetAll`'s result: the stored row together with the
requesting user's joined `correct_count` and `status` columns. -/
structure ListedCard where
  row : FlashcardRow
  correctCount : Int
  status : String
deriving DecidableEq, Repr

def enrich (db : DB) (userId : Int) (r : FlashcardRow) : ListedCard :=
  ⟨r, joinedCount db userId r.id, joinedStatus db userId r.id⟩

/-- `FlashcardModel.GetAll`: filter, order, window by `LIMIT`/`OFFSET`, and
scan.  `count(*) OVER()` is read once per scanned row into `totalRecords`
(initialised to 0), so a window holding no rows leaves it 0. -/
def getAll (db : DB) (userId : Int) (sq stq sfq : String) (cats : List String)
    (hideMastered : Bool) (filters : Filters) : List ListedCard × Metadata :=
  let matched := matchedRows db userId sq stq sfq cats hideMastered
  let sorted := sortRows filters.sort matched
  let pageRows := (sorted.drop (offsetOf filters)).take (limitOf filters)
  let total := if pageRows.isEmpty then 0 else matched.length
  (pageRows.map (enrich db userId), calculateMetadata total filters.page filters.pageSize)

/-! ## Flashcard Entity validation (createFlashcardHandler + ValidateFlashcard) -/

/-- Modelled from the spec: the `validator` package (not under src/) — an
ordered, accumulating collection of field-scoped validation messages. -/
abbrev Validator := List (String × String)

/-- Modelled from the spec: `Validator.Check` records the message for the
field when the condition fails; checks accumulate rather than
short-circuit. -/
def check (v : Validator) (ok : Bool) (field msg : String) : Validator :=
  if ok then v else v ++ [(field, msg)]

/-- Modelled from the spec: `validator.Unique` — the values are pairwise
distinct. -/
def uniqueStrings : List String → Bool
  | [] => true
  | x :: xs => !(xs.contains x) && uniqueStrings xs

/-- `data.ValidateFlashcard`: the entity-level checks. -/
def validateFlashcard (v : Validator) (f : Flashcard) : Validator :=
  check (check (check (check v
    (!(f.question == "")) "question" "question must be provided")
    (!(f.text == "")) "text" "text must be provided")
    (uniqueStrings f.categories) "categories" "categories must be unique")
    (f.ftype == "qa" || f.ftype == "mcq" || f.ftype == "yes_no")
    "flashcard_type" "invalid flashcard type"

/-- The MCQ branch of `createFlashcardHandler`: the three structural checks
run against a freshly decoded `MCQContent`. -/
def mcqContentChecks (v : Validator) (m : MCQContent) : Validator :=
  check (check (check v
    (m.options.length ≥ 2) "flashcard_content.options" "at least 2 options required")
    (0 ≤ m.correctIndex && m.correctIndex < (m.options.length : Int))
    "flashcard_content.correct_index" "correct index out of bounds")
    (uniqueStrings m.options) "flashcard_content.options" "options must be unique"

/-- The full validator state `createFlashcardHandler` inspects for an MCQ
card: structural content checks first, then `ValidateFlashcard`. -/
def createMcqValidation (m : MCQContent) (f : Flashcard) : Validator :=
  validateFlashcard (mcqContentChecks [] m) f

/-! ## Progress-record invariant (claim C10) -/

/-- The count stays within `[0, 5]` and the status is exactly determined by
the count: `not_started` iff 0, `in_progress` iff 1–4, `mastered` iff 5. -/
def goodRow (p : ProgressRow) : Prop :=
  0 ≤ p.correctCount ∧ p.correctCount ≤ 5 ∧
  (p.status = "not_started" ↔ p.correctCount = 0) ∧
  (p.status = "in_progress" ↔ 1 ≤ p.correctCount ∧ p.correctCount ≤ 4) ∧
  (p.status = "mastered" ↔ p.correctCount = 5)

def ProgressInv (db : DB) : Prop :=
  ∀ p ∈ db.progress, goodRow p

instance : DecidablePred goodRow := fun p => by
  unfold goodRow; infer_instance

instance : DecidablePred ProgressInv := fun db => by
  unfold ProgressInv; infer_instance

/-! ## Concrete data for witnesses and counterexamples -/

def sampleContent : FlashcardContent := .yesNo true ""

def mkCard (i : Int) : FlashcardRow :=
  ⟨i, none, none, none, "text", "question", "yes_no", sampleContent, [], 1, 0⟩

/-- An update request carrying card id `i` and expected version `v`. -/
def updInput (i v : Int) : Flashcard :=
  ⟨i, none, none, none, "new text", "new question", "yes_no", sampleContent, [], v, 0, 0, ""⟩

def dbFresh : DB := ⟨[], [], 1⟩

def dbMastered : DB := ⟨[], [⟨1, 1, 5, "mastered", 0⟩], 1⟩

def dbOneCard : DB := ⟨[mkCard 1], [], 2⟩

def dbTwoCards : DB :=
  ⟨[mkCard 1, mkCard 2],
   [⟨1, 1, 2, "in_progress", 0⟩, ⟨2, 1, 5, "mastered", 0⟩, ⟨1, 2, 0, "not_started", 0⟩],
   3⟩

def dbAfterUpd : DB := (update dbOneCard (updInput 1 1)).1

/-- An insert request whose version field is 5 (a client may send any
version: the Go handler copies `input.Version` into the flashcard). -/
def flashV5 : Flashcard :=
  ⟨0, none, none, none, "t", "q", "yes_no", sampleContent, [], 5, 0, 0, ""⟩

def badMcq : MCQContent := ⟨["A", "A"], 5, ""⟩

def shortMcq : MCQContent := ⟨["A"], 0, ""⟩

def goodMcq : MCQContent := ⟨["A", "B"], 0, ""⟩

def mcqCard (m : MCQContent) (q : String) : Flashcard :=
  ⟨0, none, none, none, "txt", q, "mcq", .mcq m, [], 1, 0, 0, ""⟩

/-! ## List helper lemmas -/

theorem find?_map_of_pred_inv {α : Type} (p : α → Bool) (f : α → α)
    (hf : ∀ x, p (f x) = p x) :
    ∀ l : List α, (l.map f).find? p = (l.find? p).map f := by
  intro l
  induction l with
  | nil => rfl
  | cons x xs ih =>
      simp only [List.map_cons, List.find?]
      rw [hf x]
      cases hx : p x
      · simpa using ih
      · rfl

theorem find?_append_of_none {α : Type} (p : α → Bool) (l₁ l₂ : List α)
    (h : l₁.find? p = none) : (l₁ ++ l₂).find? p = l₂.find? p := by
  induction l₁ with
  | nil => rfl
  | cons x xs ih =>
      simp only [List.find?] at h ⊢
      cases hx : p x
      · simp only [hx] at h ⊢
        exact ih h
      · simp [hx] at h

theorem map_eq_self_of {α : Type} (f : α → α) (l : List α)
    (h : ∀ x ∈ l, f x = x) : l.map f = l := by
  induction l with
  | nil => rfl
  | cons x xs ih =>
      simp only [List.map_cons]
      rw [h x (by simp), ih (fun y hy => h y (by simp [hy]))]

/-! ## Lookup lemmas for the progress operations -/

theorem progressKey_incRow (now : Nat) (u c : Int) (x : ProgressRow) :
    ((incRow now x).userId == u && (incRow now x).flashcardId == c)
      = (x.userId == u && x.flashcardId == c) := by
  rfl

theorem findProgress_increment_fresh (db : DB) (u c : Int) (now : Nat)
    (h : findProgress db u c = none) :
    findProgress (incrementCorrectCount db c u now) u c
      = some ⟨u, c, 1, "in_progress", now⟩ := by
  unfold findProgress at h
  simp only [incrementCorrectCount, findProgress, h]
  rw [find?_append_of_none _ _ _ h]
  simp [List.find?]

theorem findProgress_increment_existing (db : DB) (u c : Int) (now : Nat)
    (p : ProgressRow) (h : findProgress db u c = some p) :
    findProgress (incrementCorrectCount db c u now) u c
      = some (if p.correctCount < 5 then incRow now p else p) := by
  have hpred := List.find?_some h
  simp only [incrementCorrectCount, h]
  unfold findProgress at h ⊢
  rw [find?_map_of_pred_inv _ _ ?hinv]
  case hinv =>
    intro x
    dsimp only
    split
    · exact progressKey_incRow now u c x
    · rfl
  rw [h]
  simp only [Option.map_some']
  congr 1
  simp only [hpred, Bool.true_and, decide_eq_true_eq]

theorem findProgress_reset_fresh (db : DB) (u c : Int) (now : Nat)
    (h : findProgress db u c = none) :
    findProgress (resetCorrectCount db c u now) u c
      = some ⟨u, c, 0, "not_started", now⟩ := by
  unfold findProgress at h
  simp only [resetCorrectCount, findProgress, h]
  rw [find?_append_of_none _ _ _ h]
  simp [List.find?]

theorem findProgress_reset_existing (db : DB) (u c : Int) (now : Nat)
    (p : ProgressRow) (h : findProgress db u c = some p) :
    findProgress (resetCorrectCount db c u now) u c
      = some { p with correctCount := 0, status := "not_started", lastReviewedAt := now } := by
  have hpred := List.find?_some h
  simp only [resetCorrectCount, h]
  unfold findProgress at h ⊢
  rw [find?_map_of_pred_inv _ _ ?hinv]
  case hinv =>
    intro x
    dsimp only
    split
    · rfl
    · rfl
  rw [h]
  simp only [Option.map_some']
  congr 1
  simp [hpred]

/-- When the stored count has already reached the threshold, the guarded
upsert of `IncrementCorrectCount` touches nothing: the whole row, its
`last_reviewed_at` included, stays as it was. -/
theorem increment_noop_at_threshold (db : DB) (u c : Int) (now : Nat)
    (p : ProgressRow) (h : findProgress db u c = some p)
    (h5 : ¬ p.correctCount < 5) (hnd : progressKeysNodup db) :
    incrementCorrectCount db c u now = db := by
  have hmem := List.mem_of_find?_eq_some h
  have hpred := List.find?_some h
  simp only [Bool.and_eq_true, beq_iff_eq] at hpred
  simp only [incrementCorrectCount, h]
  have hmap : db.progress.map (fun x =>
      if x.userId == u && x.flashcardId == c && x.correctCount < 5 then incRow now x else x)
      = db.progress := by
    apply map_eq_self_of
    intro x hx
    dsimp only
    split
    case isTrue hcond =>
      simp only [Bool.and_eq_true, beq_iff_eq, decide_eq_true_eq] at hcond
      have hxp : x = p := by
        apply List.inj_on_of_nodup_map hnd hx hmem
        simp only [hcond.1.1, hcond.1.2, hpred.1, hpred.2]
      rw [hxp] at hcond
      exact absurd hcond.2 h5
    case isFalse => rfl
  rw [hmap]

/-! ## Claim C2: the mastery threshold -/

/-- C2: on a fresh (user, card) pair, five `recordCorrect` calls
(`IncrementCorrectCount`) yield count exactly 5 and status `mastered`; a
sixth call is a no-op on the row (count stays 5, status stays `mastered`);
a subsequent `ResetCorrectCount` yields count 0 and status `not_started`. -/
theorem recordCorrect_mastery_threshold (db : DB) (u c : Int)
    (t1 t2 t3 t4 t5 t6 t7 : Nat) (h : findProgress db u c = none) :
    findProgress (incrementCorrectCount (incrementCorrectCount (incrementCorrectCount
        (incrementCorrectCount (incrementCorrectCount db c u t1) c u t2) c u t3)
        c u t4) c u t5) u c
      = some ⟨u, c, 5, "mastered", t5⟩ ∧
    findProgress (incrementCorrectCount (incrementCorrectCount (incrementCorrectCount
        (incrementCorrectCount (incrementCorrectCount (incrementCorrectCount db c u t1)
        c u t2) c u t3) c u t4) c u t5) c u t6) u c
      = some ⟨u, c, 5, "mastered", t5⟩ ∧
    findProgress (resetCorrectCount (incrementCorrectCount (incrementCorrectCount
        (incrementCorrectCount (incrementCorrectCount (incrementCorrectCount
        (incrementCorrectCount db c u t1) c u t2) c u t3) c u t4) c u t5) c u t6)
        c u t7) u c
      = some ⟨u, c, 0, "not_started", t7⟩ := by
  have h1 := findProgress_increment_fresh db u c t1 h
  have h2 := findProgress_increment_existing _ u c t2 _ h1
  norm_num [incRow] at h2
  have h3 := findProgress_increment_existing _ u c t3 _ h2
  norm_num [incRow] at h3
  have h4 := findProgress_increment_existing _ u c t4 _ h3
  norm_num [incRow] at h4
  have h5 := findProgress_increment_existing _ u c t5 _ h4
  norm_num [incRow] at h5
  have h6 := findProgress_increment_existing _ u c t6 _ h5
  norm_num [incRow] at h6
  have h7 := findProgress_reset_existing _ u c t7 _ h6
  exact ⟨h5, h6, h7⟩

theorem recordCorrect_mastery_threshold_witness :
    findProgress (incrementCorrectCount (incrementCorrectCount (incrementCorrectCount
        (incrementCorrectCount (incrementCorrectCount dbFresh 1 1 1) 1 1 2) 1 1 3)
        1 1 4) 1 1 5) 1 1
      = some ⟨1, 1, 5, "mastered", 5⟩ ∧
    findProgress (incrementCorrectCount (incrementCorrectCount (incrementCorrectCount
        (incrementCorrectCount (incrementCorrectCount (incrementCorrectCount dbFresh 1 1 1)
        1 1 2) 1 1 3) 1 1 4) 1 1 5) 1 1 6) 1 1
      = some ⟨1, 1, 5, "mastered", 5⟩ ∧
    findProgress (resetCorrectCount (incrementCorrectCount (incrementCorrectCount
        (incrementCorrectCount (incrementCorrectCount (incrementCorrectCount
        (incrementCorrectCount dbFresh 1 1 1) 1 1 2) 1 1 3) 1 1 4) 1 1 5) 1 1 6)
        1 1 7) 1 1
      = some ⟨1, 1, 0, "not_started", 7⟩ :=
  recordCorrect_mastery_threshold dbFresh 1 1 1 2 3 4 5 6 7 rfl

/-! ## Claim C5: last_reviewed_at refresh -/

/-- C5 counterexample: for a (user, card) pair whose stored count has
already reached the mastery threshold (stored `last_reviewed_at` is 0), a
further `IncrementCorrectCount` call at time 3 does NOT refresh
`last_reviewed_at`: the guarded upsert leaves it at 0.  This falsifies the
claim that the timestamp is refreshed by every call. -/
theorem increment_refresh_counterexample :
    (findProgress (incrementCorrectCount dbMastered 1 1 3) 1 1).map
      (fun p => p.lastReviewedAt) = some 0 ∧ (0 : Nat) ≠ 3 := by
  exact ⟨rfl, by decide⟩

/-- C5 (amended): `IncrementCorrectCount` refreshes `last_reviewed_at` on
every call that creates the progress row or increments its count (stored
count below 5); a call made while the stored count has already reached the
threshold leaves the whole row — `last_reviewed_at` included — unchanged. -/
theorem increment_refresh_behavior (db : DB) (u c : Int) (now : Nat) :
    (findProgress db u c = none →
      (findProgress (incrementCorrectCount db c u now) u c).map
        (fun p => p.lastReviewedAt) = some now) ∧
    (∀ p, findProgress db u c = some p → p.correctCount < 5 →
      (findProgress (incrementCorrectCount db c u now) u c).map
        (fun p => p.lastReviewedAt) = some now) ∧
    (∀ p, findProgress db u c = some p → ¬ p.correctCount < 5 →
      progressKeysNodup db →
      incrementCorrectCount db c u now = db) := by
  refine ⟨?_, ?_, ?_⟩
  · intro h
    rw [findProgress_increment_fresh db u c now h]
    rfl
  · intro p h hlt
    rw [findProgress_increment_existing db u c now p h]
    simp [incRow, hlt]
  · intro p h h5 hnd
    exact increment_noop_at_threshold db u c now p h h5 hnd

theorem increment_refresh_behavior_witness :
    ((findProgress (incrementCorrectCount dbFresh 1 1 7) 1 1).map
      (fun p => p.lastReviewedAt) = some 7) ∧
    incrementCorrectCount dbMastered 1 1 7 = dbMastered :=
  ⟨(increment_refresh_behavior dbFresh 1 1 7).1 rfl,
   (increment_refresh_behavior dbMastered 1 1 7).2.2 ⟨1, 1, 5, "mastered", 0⟩
     rfl (by decide) (by decide)⟩

/-! ## Claim C10: the count/status invariant -/

/-- C10: rows evolving through `Insert` seeding, `IncrementCorrectCount`
and `ResetCorrectCount` keep `0 ≤ correct_count ≤ 5`, with the status
exactly determined by the count (`not_started` iff 0, `in_progress` iff
1–4, `mastered` iff 5): each of the three operations preserves the
invariant over the whole progress table. -/
theorem progress_invariant_preserved (db : DB) (h : ProgressInv db) :
    (∀ c u now, ProgressInv (incrementCorrectCount db c u now)) ∧
    (∀ c u now, ProgressInv (resetCorrectCount db c u now)) ∧
    (∀ f u now fc fp, ProgressInv (insert db f u now fc fp).1) := by
  refine ⟨?_, ?_, ?_⟩
  · intro c u now q hq
    unfold incrementCorrectCount at hq
    cases hfind : findProgress db u c with
    | none =>
        rw [hfind] at hq
        simp only [List.mem_append, List.mem_singleton] at hq
        rcases hq with hq | hq
        · exact h q hq
        · subst hq
          refine ⟨by norm_num, by norm_num, ?_, ?_, ?_⟩ <;> simp
    | some p =>
        rw [hfind] at hq
        simp only [List.mem_map] at hq
        obtain ⟨x, hx, hq⟩ := hq
        have hgood := h x hx
        subst hq
        split
        case isTrue hcond =>
          simp only [Bool.and_eq_true, beq_iff_eq, decide_eq_true_eq] at hcond
          obtain ⟨h0, h5, hns, hip, hm⟩ := hgood
          have hlt := hcond.2
          unfold incRow goodRow
          by_cases hge : x.correctCount + 1 ≥ 5
          · simp only [if_pos hge]
            refine ⟨by omega, by omega, ?_, ?_, ?_⟩ <;> simp <;> omega
          · simp only [if_neg hge]
            refine ⟨by omega, by omega, ?_, ?_, ?_⟩ <;> simp <;> omega
        case isFalse => exact hgood
  · intro c u now q hq
    unfold resetCorrectCount at hq
    cases hfind : findProgress db u c with
    | none =>
        rw [hfind] at hq
        simp only [List.mem_append, List.mem_singleton] at hq
        rcases hq with hq | hq
        · exact h q hq
        · subst hq
          refine ⟨by norm_num, by norm_num, ?_, ?_, ?_⟩ <;> simp
    | some p =>
        rw [hfind] at hq
        simp only [List.mem_map] at hq
        obtain ⟨x, hx, hq⟩ := hq
        have hgood := h x hx
        subst hq
        split
        case isTrue =>
          refine ⟨by norm_num, by norm_num, ?_, ?_, ?_⟩ <;> simp
        case isFalse => exact hgood
  · intro f u now fc fp q hq
    unfold insert at hq
    by_cases hfc : fc = true
    · rw [if_pos hfc] at hq
      exact h q hq
    · rw [if_neg hfc] at hq
      by_cases hfp : fp = true
      · rw [if_pos hfp] at hq
        exact h q hq
      · rw [if_neg hfp] at hq
        simp only [List.mem_append, List.mem_singleton] at hq
        rcases hq with hq | hq
        · exact h q hq
        · subst hq
          refine ⟨by norm_num, by norm_num, ?_, ?_, ?_⟩ <;> simp

theorem progress_invariant_preserved_witness :
    ProgressInv dbTwoCards ∧
    ProgressInv (incrementCorrectCount dbTwoCards 1 1 9) ∧
    ProgressInv (resetCorrectCount dbTwoCards 1 2 9) ∧
    ProgressInv (insert dbTwoCards flashV5 4 9 false false).1 :=
  ⟨by decide,
   (progress_invariant_preserved dbTwoCards (by decide)).1 1 1 9,
   (progress_invariant_preserved dbTwoCards (by decide)).2.1 1 2 9,
   (progress_invariant_preserved dbTwoCards (by decide)).2.2 flashV5 4 9 false false⟩

/-! ## Claim C1: optimistic concurrency of Update -/

theorem updateRow_id (f : Flashcard) (r : FlashcardRow) : (updateRow f r).id = r.id := by
  unfold updateRow
  split <;> rfl

theorem update_fst_flashcards (db : DB) (f : Flashcard) :
    (update db f).1.flashcards = db.flashcards.map (updateRow f) := by
  unfold update
  split <;> rfl

theorem cardIdsNodup_update (db : DB) (f : Flashcard) (h : cardIdsNodup db) :
    cardIdsNodup (update db f).1 := by
  unfold cardIdsNodup at h ⊢
  rw [update_fst_flashcards, List.map_map]
  have : ∀ r ∈ db.flashcards, ((fun r => r.id) ∘ updateRow f) r = (fun r => r.id) r := by
    intro r _
    simp [Function.comp, updateRow_id]
  rw [List.map_congr_left this]
  exact h

theorem findCard_update (db : DB) (f : Flashcard) (r : FlashcardRow)
    (h : findCard db f.id = some r) :
    findCard (update db f).1 f.id = some (updateRow f r) := by
  unfold findCard at h ⊢
  rw [update_fst_flashcards]
  rw [find?_map_of_pred_inv _ _ ?hinv]
  case hinv =>
    intro x
    rw [updateRow_id]
  rw [h]
  rfl

theorem update_ok_version (db : DB) (f : Flashcard) (hnd : cardIdsNodup db)
    (r : FlashcardRow) (h : findCard db f.id = some r) (v : Int)
    (hok : (update db f).2 = Except.ok v) :
    r.version = f.version ∧ v = r.version + 1 := by
  have hmem := List.mem_of_find?_eq_some h
  have hpred := List.find?_some h
  rw [beq_iff_eq] at hpred
  unfold update at hok
  cases hfil : db.flashcards.filter (fun r => r.id == f.id && r.version == f.version) with
  | nil =>
      rw [hfil] at hok
      simp at hok
  | cons t ts =>
      rw [hfil] at hok
      simp only at hok
      have htmem : t ∈ db.flashcards.filter (fun r => r.id == f.id && r.version == f.version) := by
        rw [hfil]; exact List.mem_cons_self t ts
      rw [List.mem_filter] at htmem
      obtain ⟨htl, htpred⟩ := htmem
      simp only [Bool.and_eq_true, beq_iff_eq] at htpred
      have htr : t = r := by
        apply List.inj_on_of_nodup_map hnd htl hmem
        rw [htpred.1, hpred]
      rw [htr] at htpred
      refine ⟨htpred.2, ?_⟩
      cases hok
      rw [htr]

theorem updateRow_hit_version (f : Flashcard) (r : FlashcardRow)
    (hid : r.id = f.id) (hv : r.version = f.version) :
    (updateRow f r).version = r.version + 1 := by
  unfold updateRow
  rw [if_pos (by simp [hid, hv])]

theorem applyUpdates_version (id : Int) (ups : List Flashcard) :
    ∀ (db : DB) (r : FlashcardRow) (db' : DB), cardIdsNodup db →
      findCard db id = some r → (∀ u ∈ ups, u.id = id) →
      applyUpdates db ups = some db' →
      ∃ r', findCard db' id = some r' ∧ r'.version = r.version + (ups.length : Int) := by
  induction ups with
  | nil =>
      intro db r db' _ h _ happ
      simp only [applyUpdates, Option.some.injEq] at happ
      subst happ
      exact ⟨r, h, by simp⟩
  | cons u rest ih =>
      intro db r db' hnd h hall happ
      have huid : u.id = id := hall u (List.mem_cons_self u rest)
      unfold applyUpdates at happ
      cases hu : update db u with
      | mk db1 out =>
          rw [hu] at happ
          cases out with
          | error e => simp at happ
          | ok v =>
              have hfr : findCard db u.id = some r := by rw [huid]; exact h
              have hok : (update db u).2 = Except.ok v := by rw [hu]
              have hver := update_ok_version db u hnd r hfr v hok
              have hfind1 : findCard db1 u.id = some (updateRow u r) := by
                have := findCard_update db u r hfr
                rw [hu] at this
                exact this
              have hnd1 : cardIdsNodup db1 := by
                have := cardIdsNodup_update db u hnd
                rw [hu] at this
                exact this
              have hpredr := List.find?_some hfr
              rw [beq_iff_eq] at hpredr
              obtain ⟨r', hr', hvr'⟩ :=
                ih db1 (updateRow u r) db' hnd1
                  (by rw [← huid]; exact hfind1)
                  (fun x hx => hall x (List.mem_cons_of_mem u hx)) happ
              refine ⟨r', hr', ?_⟩
              rw [hvr', updateRow_hit_version u r hpredr hver.1]
              simp only [List.length_cons]
              push_cast
              ring

theorem update_no_match (db : DB) (f : Flashcard)
    (h : ∀ x ∈ db.flashcards, ¬(x.id = f.id ∧ x.version = f.version)) :
    update db f = (db, Except.error DbErr.editConflict) := by
  have hfil : db.flashcards.filter (fun r => r.id == f.id && r.version == f.version) = [] := by
    rw [List.filter_eq_nil_iff]
    intro x hx
    simp only [Bool.and_eq_true, beq_iff_eq]
    exact fun hc => h x hx hc
  have hmap : db.flashcards.map (updateRow f) = db.flashcards := by
    apply map_eq_self_of
    intro x hx
    unfold updateRow
    rw [if_neg]
    simp only [Bool.and_eq_true, beq_iff_eq]
    exact fun hc => h x hx hc
  unfold update
  rw [hfil, hmap]

/-- C1: starting from a card stored at version 1, N successful `Update`
calls naming that card leave it stored at version `1 + N`; an `Update`
supplying a version different from the stored one, or naming a card that
does not exist, returns `ErrEditConflict` and leaves the database
unchanged. -/
theorem update_optimistic_concurrency (db : DB) (id : Int) (hnd : cardIdsNodup db) :
    (∀ r ups db', findCard db id = some r → r.version = 1 →
      (∀ u ∈ ups, u.id = id) → applyUpdates db ups = some db' →
      ∃ r', findCard db' id = some r' ∧ r'.version = 1 + (ups.length : Int)) ∧
    (∀ f r, f.id = id → findCard db id = some r → f.version ≠ r.version →
      update db f = (db, Except.error DbErr.editConflict)) ∧
    (∀ f, f.id = id → findCard db id = none →
      update db f = (db, Except.error DbErr.editConflict)) := by
  refine ⟨?_, ?_, ?_⟩
  · intro r ups db' h hv1 hall happ
    obtain ⟨r', hr', hvr'⟩ := applyUpdates_version id ups db r db' hnd h hall happ
    exact ⟨r', hr', by rw [hvr', hv1]⟩
  · intro f r hfid h hne
    apply update_no_match
    intro x hx hc
    have hmem := List.mem_of_find?_eq_some h
    have hpred := List.find?_some h
    rw [beq_iff_eq] at hpred
    have hxr : x = r := by
      apply List.inj_on_of_nodup_map hnd hx hmem
      rw [hc.1, hfid, hpred]
    rw [hxr] at hc
    exact hne (hc.2.symm)
  · intro f hfid h
    apply update_no_match
    intro x hx hc
    unfold findCard at h
    rw [List.find?_eq_none] at h
    have := h x hx
    rw [beq_iff_eq] at this
    rw [← hfid] at this
    exact this hc.1

theorem update_optimistic_concurrency_witness :
    (∃ r', findCard dbAfterUpd 1 = some r' ∧
      r'.version = 1 + (([updInput 1 1] : List Flashcard).length : Int)) ∧
    update dbOneCard (updInput 1 7) = (dbOneCard, Except.error DbErr.editConflict) :=
  ⟨(update_optimistic_concurrency dbOneCard 1 (by decide)).1 (mkCard 1) [updInput 1 1]
      dbAfterUpd rfl rfl (by decide) rfl,
   (update_optimistic_concurrency dbOneCard 1 (by decide)).2.1 (updInput 1 7) (mkCard 1)
      rfl rfl (by decide)⟩

/-! ## Claim C3: Insert -/

/-- C3 counterexample: `Insert` persists the caller-supplied version, not
version 1 — inserting a flashcard whose version field is 5 stores and
returns version 5. -/
theorem insert_version_counterexample :
    (findCard (insert dbFresh flashV5 4 0 false false).1 1).map (fun r => r.version)
      = some 5 ∧ ¬((5 : Int) = 1) :=
  ⟨rfl, by decide⟩

/-- C3 (amended): `Insert` assigns the card's id (from the serial sequence)
and its creation timestamp, stores the caller-supplied version field
(version 1 only when the caller supplies 1), and creates the owner's
initial progress record (`not_started`, count 0) in the same transaction:
if either insert fails, the published state is unchanged — neither row is
visible to any subsequent read. -/
theorem insert_atomic_with_progress_seed (db : DB) (f : Flashcard) (u : Int) (now : Nat)
    (hfreshCard : ∀ r ∈ db.flashcards, ¬ r.id = db.nextId)
    (hfreshProg : ∀ p ∈ db.progress, ¬(p.userId = u ∧ p.flashcardId = db.nextId)) :
    (∀ fc fp, fc = true ∨ fp = true →
      insert db f u now fc fp = (db, Except.error DbErr.storeFailure)) ∧
    (insert db f u now false false).2
      = Except.ok { f with id := db.nextId, createdAt := now } ∧
    findCard (insert db f u now false false).1 db.nextId
      = some (rowOfFlashcard f db.nextId now) ∧
    findProgress (insert db f u now false false).1 u db.nextId
      = some ⟨u, db.nextId, 0, "not_started", now⟩ := by
  refine ⟨?_, ?_, ?_, ?_⟩
  · intro fc fp hor
    cases fc
    · cases fp
      · simp at hor
      · rfl
    · rfl
  · rfl
  · have hstate : (insert db f u now false false).1 =
        { db with
            flashcards := db.flashcards ++ [rowOfFlashcard f db.nextId now],
            progress := db.progress ++ [⟨u, db.nextId, 0, "not_started", now⟩],
            nextId := db.nextId + 1 } := rfl
    rw [hstate]
    unfold findCard
    dsimp only
    rw [find?_append_of_none]
    · simp [List.find?, rowOfFlashcard]
    · rw [List.find?_eq_none]
      intro x hx
      simp only [beq_iff_eq]
      exact hfreshCard x hx
  · have hstate : (insert db f u now false false).1 =
        { db with
            flashcards := db.flashcards ++ [rowOfFlashcard f db.nextId now],
            progress := db.progress ++ [⟨u, db.nextId, 0, "not_started", now⟩],
            nextId := db.nextId + 1 } := rfl
    rw [hstate]
    unfold findProgress
    dsimp only
    rw [find?_append_of_none]
    · simp [List.find?]
    · rw [List.find?_eq_none]
      intro x hx
      simp only [Bool.and_eq_true, beq_iff_eq]
      exact fun hc => hfreshProg x hx hc

theorem insert_atomic_with_progress_seed_witness :
    insert dbOneCard flashV5 1 4 true false
      = (dbOneCard, Except.error DbErr.storeFailure) ∧
    findCard (insert dbOneCard flashV5 1 4 false false).1 2
      = some (rowOfFlashcard flashV5 2 4) ∧
    findProgress (insert dbOneCard flashV5 1 4 false false).1 1 2
      = some ⟨1, 2, 0, "not_started", 4⟩ :=
  ⟨(insert_atomic_with_progress_seed dbOneCard flashV5 1 4 (by decide) (by decide)).1
      true false (Or.inl rfl),
   (insert_atomic_with_progress_seed dbOneCard flashV5 1 4 (by decide) (by decide)).2.2.1,
   (insert_atomic_with_progress_seed dbOneCard flashV5 1 4 (by decide) (by decide)).2.2.2⟩

/-! ## Claim C4: Delete -/

/-- C4: `Delete` removes, in one transaction, every progress row of the
card (for every user) and the card itself; when the card does not exist it
fails with `ErrRecordNotFound` and the state — every user's progress rows
included — is unchanged; any failing run leaves the state unchanged. -/
theorem delete_cascades_atomically (db : DB) (id : Int) :
    (findCard db id = none →
      deleteCard db id false false = (db, Except.error DbErr.recordNotFound)) ∧
    (1 ≤ id → findCard db id ≠ none →
      deleteCard db id false false =
        ({ db with
            progress := db.progress.filter (fun p => !(p.flashcardId == id)),
            flashcards := db.flashcards.filter (fun r => !(r.id == id)) }, Except.ok ())) ∧
    (∀ fp fc db' e, deleteCard db id fp fc = (db', Except.error e) → db' = db) := by
  refine ⟨?_, ?_, ?_⟩
  · intro h
    unfold findCard at h
    rw [List.find?_eq_none] at h
    unfold deleteCard
    by_cases hlt : id < 1
    · rw [if_pos hlt]
    · rw [if_neg hlt, if_neg (by decide), if_neg (by decide)]
      have hfil : db.flashcards.filter (fun r => r.id == id) = [] := by
        rw [List.filter_eq_nil_iff]
        exact h
      rw [hfil]
      rfl
  · intro hge hne
    cases hfind : findCard db id with
    | none => exact absurd hfind hne
    | some r =>
        have hmem := List.mem_of_find?_eq_some hfind
        have hpred := List.find?_some hfind
        unfold deleteCard
        rw [if_neg (by omega), if_neg (by decide), if_neg (by decide)]
        have hr : r ∈ db.flashcards.filter (fun r => r.id == id) :=
          List.mem_filter.mpr ⟨hmem, hpred⟩
        have hlen : (db.flashcards.filter (fun r => r.id == id)).length ≠ 0 := by
          intro h0
          rw [List.length_eq_zero] at h0
          rw [h0] at hr
          exact absurd hr (List.not_mem_nil r)
        rw [if_neg (by simpa using hlen)]
  · intro fp fc db' e h
    unfold deleteCard at h
    by_cases h1 : id < 1
    · rw [if_pos h1] at h
      exact (congrArg Prod.fst h).symm
    · rw [if_neg h1] at h
      by_cases h2 : fp = true
      · rw [if_pos h2] at h
        exact (congrArg Prod.fst h).symm
      · rw [if_neg h2] at h
        by_cases h3 : fc = true
        · rw [if_pos h3] at h
          exact (congrArg Prod.fst h).symm
        · rw [if_neg h3] at h
          by_cases h4 : ((db.flashcards.filter (fun r => r.id == id)).length == 0) = true
          · rw [if_pos h4] at h
            exact (congrArg Prod.fst h).symm
          · rw [if_neg h4] at h
            have := congrArg Prod.snd h
            simp at this

theorem delete_cascades_atomically_witness :
    deleteCard dbTwoCards 3 false false = (dbTwoCards, Except.error DbErr.recordNotFound) ∧
    deleteCard dbTwoCards 1 false false =
      ({ dbTwoCards with
          progress := dbTwoCards.progress.filter (fun p => !(p.flashcardId == 1)),
          flashcards := dbTwoCards.flashcards.filter (fun r => !(r.id == 1)) },
        Except.ok ()) :=
  ⟨(delete_cascades_atomically dbTwoCards 3).1 rfl,
   (delete_cascades_atomically dbTwoCards 1).2.1 (by decide) (by decide)⟩

/-! ## Claim C6: category filter semantics -/

/-- C6: the category filter of the listing has AND semantics by array
containment — a card matches iff its category set contains every requested
label; the empty filter matches every card. -/
theorem category_filter_and_semantics (cardCats filterCats : List String) :
    (categoriesMatch cardCats filterCats = true ↔ ∀ cat ∈ filterCats, cat ∈ cardCats) ∧
    categoriesMatch cardCats [] = true := by
  refine ⟨?_, by simp [categoriesMatch]⟩
  unfold categoriesMatch
  simp only [Bool.or_eq_true, List.all_eq_true, List.isEmpty_iff]
  constructor
  · rintro (h | h)
    · intro cat hcat
      exact List.elem_iff.mp (h cat hcat)
    · subst h
      intro cat hcat
      exact absurd hcat (List.not_mem_nil cat)
  · intro h
    exact Or.inl (fun cat hcat => List.elem_iff.mpr (h cat hcat))

theorem category_filter_and_semantics_witness :
    categoriesMatch ["A", "B"] ["A"] = true ∧
    categoriesMatch ["A", "B"] ["A", "B"] = true ∧
    categoriesMatch ["A", "B"] ["A", "C"] = false ∧
    categoriesMatch ["A", "B"] [] = true :=
  ⟨(category_filter_and_semantics ["A", "B"] ["A"]).1.mpr (by decide),
   by decide, by decide,
   (category_filter_and_semantics ["A", "B"] []).2⟩

/-! ## Claim C8: MCQ validation -/

theorem mem_check (v : Validator) (ok : Bool) (k m : String)
    (x : String × String) (hx : x ∈ v) : x ∈ check v ok k m := by
  unfold check
  split
  · exact hx
  · exact List.mem_append_left _ hx

theorem check_fail_mem (v : Validator) (k m : String) :
    (k, m) ∈ check v false k m := by
  unfold check
  simp

theorem check_mem_cases (v : Validator) (ok : Bool) (k m : String)
    (x : String × String) (hx : x ∈ check v ok k m) : x ∈ v ∨ x = (k, m) := by
  unfold check at hx
  split at hx
  · exact Or.inl hx
  · rcases List.mem_append.mp hx with h | h
    · exact Or.inl h
    · simp only [List.mem_singleton] at h
      exact Or.inr h

theorem mem_validateFlashcard (v : Validator) (f : Flashcard)
    (x : String × String) (hx : x ∈ v) : x ∈ validateFlashcard v f := by
  unfold validateFlashcard
  exact mem_check _ _ _ _ _ (mem_check _ _ _ _ _ (mem_check _ _ _ _ _ (mem_check _ _ _ _ _ hx)))

theorem validateFlashcard_fields (v : Validator) (f : Flashcard)
    (x : String × String) (hx : x ∈ validateFlashcard v f) :
    x ∈ v ∨ x.1 = "question" ∨ x.1 = "text" ∨ x.1 = "categories" ∨ x.1 = "flashcard_type" := by
  unfold validateFlashcard at hx
  rcases check_mem_cases _ _ _ _ _ hx with hx | hx
  · rcases check_mem_cases _ _ _ _ _ hx with hx | hx
    · rcases check_mem_cases _ _ _ _ _ hx with hx | hx
      · rcases check_mem_cases _ _ _ _ _ hx with hx | hx
        · exact Or.inl hx
        · exact Or.inr (Or.inl (by rw [hx]))
      · exact Or.inr (Or.inr (Or.inl (by rw [hx])))
    · exact Or.inr (Or.inr (Or.inr (Or.inl (by rw [hx]))))
  · exact Or.inr (Or.inr (Or.inr (Or.inr (by rw [hx]))))

/-- C8: building an MCQ with fewer than 2 options, with `correct_index`
outside `[0, len(options))`, or with duplicate options always records a
validation failure on the corresponding content field; these structural
failures accumulate with the entity-level checks (a violated entity field
such as an empty question is reported in the same list); an MCQ satisfying
all three constraints produces no content-field failure. -/
theorem mcq_validation_accumulates (m : MCQContent) (f : Flashcard) :
    (m.options.length < 2 →
      ("flashcard_content.options", "at least 2 options required")
        ∈ createMcqValidation m f) ∧
    (¬(0 ≤ m.correctIndex ∧ m.correctIndex < (m.options.length : Int)) →
      ("flashcard_content.correct_index", "correct index out of bounds")
        ∈ createMcqValidation m f) ∧
    (uniqueStrings m.options = false →
      ("flashcard_content.options", "options must be unique")
        ∈ createMcqValidation m f) ∧
    (f.question = "" →
      ("question", "question must be provided") ∈ createMcqValidation m f) ∧
    (2 ≤ m.options.length → 0 ≤ m.correctIndex →
      m.correctIndex < (m.options.length : Int) → uniqueStrings m.options = true →
      ∀ msg, ¬("flashcard_content.options", msg) ∈ createMcqValidation m f ∧
        ¬("flashcard_content.correct_index", msg) ∈ createMcqValidation m f) := by
  refine ⟨?_, ?_, ?_, ?_, ?_⟩
  · intro h
    unfold createMcqValidation mcqContentChecks
    apply mem_validateFlashcard
    apply mem_check
    apply mem_check
    rw [show (decide (m.options.length ≥ 2)) = false from decide_eq_false (by omega)]
    exact check_fail_mem _ _ _
  · intro h
    unfold createMcqValidation mcqContentChecks
    apply mem_validateFlashcard
    apply mem_check
    have hc : (decide (0 ≤ m.correctIndex) && decide (m.correctIndex < (m.options.length : Int)))
        = false := by
      rcases not_and_or.mp h with h' | h'
      · rw [decide_eq_false h', Bool.false_and]
      · rw [decide_eq_false h', Bool.and_false]
    rw [hc]
    exact check_fail_mem _ _ _
  · intro h
    unfold createMcqValidation mcqContentChecks
    apply mem_validateFlashcard
    rw [h]
    exact check_fail_mem _ _ _
  · intro h
    unfold createMcqValidation validateFlashcard
    apply mem_check
    apply mem_check
    apply mem_check
    rw [show (!(f.question == "")) = false from by rw [h]; rfl]
    exact check_fail_mem _ _ _
  · intro h2 h0 hlt huniq msg
    have hchecks : mcqContentChecks [] m = [] := by
      unfold mcqContentChecks
      rw [show (decide (m.options.length ≥ 2)) = true from decide_eq_true h2]
      rw [show (decide (0 ≤ m.correctIndex) && decide (m.correctIndex < (m.options.length : Int)))
          = true from by rw [decide_eq_true h0, decide_eq_true hlt]; rfl]
      rw [huniq]
      rfl
    constructor
    · intro hmem
      unfold createMcqValidation at hmem
      rw [hchecks] at hmem
      rcases validateFlashcard_fields _ _ _ hmem with hmem | h' | h' | h' | h'
      · exact absurd hmem (List.not_mem_nil _)
      all_goals simp at h'
    · intro hmem
      unfold createMcqValidation at hmem
      rw [hchecks] at hmem
      rcases validateFlashcard_fields _ _ _ hmem with hmem | h' | h' | h' | h'
      · exact absurd hmem (List.not_mem_nil _)
      all_goals simp at h'

theorem mcq_validation_accumulates_witness :
    ("flashcard_content.correct_index", "correct index out of bounds")
      ∈ createMcqValidation badMcq (mcqCard badMcq "") ∧
    ("flashcard_content.options", "options must be unique")
      ∈ createMcqValidation badMcq (mcqCard badMcq "") ∧
    ("question", "question must be provided")
      ∈ createMcqValidation badMcq (mcqCard badMcq "") ∧
    ("flashcard_content.options", "at least 2 options required")
      ∈ createMcqValidation shortMcq (mcqCard shortMcq "q") ∧
    (¬("flashcard_content.options", "options must be unique")
      ∈ createMcqValidation goodMcq (mcqCard goodMcq "q")) :=
  ⟨(mcq_validation_accumulates badMcq (mcqCard badMcq "")).2.1 (by decide),
   (mcq_validation_accumulates badMcq (mcqCard badMcq "")).2.2.1 (by decide),
   (mcq_validation_accumulates badMcq (mcqCard badMcq "")).2.2.2.1 rfl,
   (mcq_validation_accumulates shortMcq (mcqCard shortMcq "q")).1 (by decide),
   ((mcq_validation_accumulates goodMcq (mcqCard goodMcq "q")).2.2.2.2
      (by decide) (by decide) (by decide) (by decide) "options must be unique").1⟩

/-! ## Claim C7: the hide_mastered flag -/

theorem mem_insertByLe (le : FlashcardRow → FlashcardRow → Bool) (x y : FlashcardRow) :
    ∀ l : List FlashcardRow, y ∈ insertByLe le x l ↔ y = x ∨ y ∈ l := by
  intro l
  induction l with
  | nil => simp [insertByLe]
  | cons z zs ih =>
      unfold insertByLe
      split
      · simp [List.mem_cons]
      · simp only [List.mem_cons, ih]
        tauto

theorem mem_sortWith (le : FlashcardRow → FlashcardRow → Bool) (y : FlashcardRow) :
    ∀ l : List FlashcardRow, y ∈ sortWith le l ↔ y ∈ l := by
  intro l
  induction l with
  | nil => exact Iff.rfl
  | cons x xs ih =>
      unfold sortWith
      rw [mem_insertByLe]
      simp only [List.mem_cons, ih]

theorem mem_sortRows (sort : String) (l : List FlashcardRow) (y : FlashcardRow) :
    y ∈ sortRows sort l ↔ y ∈ l := by
  unfold sortRows
  split
  · exact Iff.rfl
  · exact mem_sortWith _ _ _

/-- C7: with `hide_mastered` set, no card whose joined progress status for
the requesting user is `mastered` appears in the listing; with the flag
unset, the filter reduces to the other four predicates, so mastered cards
are included whenever they match them. -/
theorem hide_mastered_filter (db : DB) (u : Int) (sq stq sfq : String)
    (cats : List String) (f : Filters) :
    (∀ lc ∈ (getAll db u sq stq sfq cats true f).1, ¬ lc.status = "mastered") ∧
    (∀ r, r ∈ matchedRows db u sq stq sfq cats false ↔
      r ∈ db.flashcards ∧
        (sectionMatches r.sectionLabel sq && scalarMatches r.sectionType stq &&
         scalarMatches r.sourceFile sfq && categoriesMatch r.categories cats) = true) := by
  constructor
  · intro lc hlc
    unfold getAll at hlc
    simp only [List.mem_map] at hlc
    obtain ⟨r, hr, hlc⟩ := hlc
    have hr1 : r ∈ sortRows f.sort (matchedRows db u sq stq sfq cats true) :=
      List.drop_subset _ _ (List.take_subset _ _ hr)
    have hr2 : r ∈ matchedRows db u sq stq sfq cats true :=
      (mem_sortRows _ _ _).mp hr1
    unfold matchedRows at hr2
    rw [List.mem_filter] at hr2
    have hmatch := hr2.2
    unfold rowMatches at hmatch
    simp only [Bool.and_eq_true] at hmatch
    have hstat : ¬ joinedStatus db u r.id = "mastered" := by
      have := hmatch.2
      simpa using this
    rw [← hlc]
    exact hstat
  · intro r
    unfold matchedRows rowMatches
    rw [List.mem_filter]
    constructor
    · rintro ⟨hmem, hb⟩
      refine ⟨hmem, ?_⟩
      simpa using hb
    · rintro ⟨hmem, hb⟩
      refine ⟨hmem, ?_⟩
      simpa using hb

theorem hide_mastered_filter_witness :
    (∀ lc ∈ (getAll dbTwoCards 2 "" "" "" [] true ⟨1, 20, "id"⟩).1,
      ¬ lc.status = "mastered") ∧
    mkCard 1 ∈ matchedRows dbTwoCards 2 "" "" "" [] false ∧
    joinedStatus dbTwoCards 2 1 = "mastered" :=
  ⟨(hide_mastered_filter dbTwoCards 2 "" "" "" [] ⟨1, 20, "id"⟩).1,
   ((hide_mastered_filter dbTwoCards 2 "" "" "" [] ⟨1, 20, "id"⟩).2 (mkCard 1)).mpr
     ⟨by decide, by decide⟩,
   rfl⟩

/-! ## Claim C9: pagination and its metadata -/

/-- C9 counterexample: one matching record, page 2, page size 1 (both
positive and within bounds): the window is empty, the scan loop never runs,
and the returned metadata reports `totalRecords = 0` even though the total
matching count is 1 — the metadata does not carry the total matching
count. -/
theorem getAll_metadata_counterexample :
    (getAll dbOneCard 1 "" "" "" [] false ⟨2, 1, "id"⟩).2.totalRecords = 0 ∧
    (matchedRows dbOneCard 1 "" "" "" [] false).length = 1 ∧
    ¬((0 : Nat) = 1) :=
  ⟨rfl, rfl, by decide⟩

/-- C9 (amended): for a listing query with positive page `p` and page size
`s`, the returned rows are exactly the rows of the ordered matching set at
positions `[(p-1)*s, (p-1)*s + s)`; when the returned window holds at least
one row the metadata carries the total matching count, current page, page
size and last page `ceil(total / pageSize)`; when the window is empty
(total 0, or page past the last) the metadata is all-zero. -/
theorem getAll_pagination (db : DB) (u : Int) (sq stq sfq : String) (cats : List String)
    (hide : Bool) (f : Filters) (hp : 1 ≤ f.page) (hs : 1 ≤ f.pageSize) :
    ((getAll db u sq stq sfq cats hide f).1 =
      (((sortRows f.sort (matchedRows db u sq stq sfq cats hide)).drop
          ((f.page - 1) * f.pageSize)).take f.pageSize).map (enrich db u)) ∧
    (∀ i : Nat, i < f.pageSize →
      (getAll db u sq stq sfq cats hide f).1[i]? =
        ((sortRows f.sort (matchedRows db u sq stq sfq cats hide))[(f.page - 1) * f.pageSize + i]?).map
          (enrich db u)) ∧
    ((getAll db u sq stq sfq cats hide f).1 ≠ [] →
      (getAll db u sq stq sfq cats hide f).2 =
        ⟨f.page, f.pageSize,
          ((matchedRows db u sq stq sfq cats hide).length + f.pageSize - 1) / f.pageSize,
          (matchedRows db u sq stq sfq cats hide).length⟩) ∧
    ((getAll db u sq stq sfq cats hide f).1 = [] →
      (getAll db u sq stq sfq cats hide f).2 = ⟨0, 0, 0, 0⟩) := by
  have hrows : (getAll db u sq stq sfq cats hide f).1
      = (((sortRows f.sort (matchedRows db u sq stq sfq cats hide)).drop
          ((f.page - 1) * f.pageSize)).take f.pageSize).map (enrich db u) := rfl
  have hmd : (getAll db u sq stq sfq cats hide f).2
      = calculateMetadata
          (if (((sortRows f.sort (matchedRows db u sq stq sfq cats hide)).drop
              ((f.page - 1) * f.pageSize)).take f.pageSize).isEmpty then 0
            else (matchedRows db u sq stq sfq cats hide).length)
          f.page f.pageSize := rfl
  refine ⟨hrows, ?_, ?_, ?_⟩
  · intro i hi
    rw [hrows, List.getElem?_map, List.getElem?_take_of_lt hi, List.getElem?_drop]
  · intro hne
    rw [hrows] at hne
    have hpr : ((sortRows f.sort (matchedRows db u sq stq sfq cats hide)).drop
        ((f.page - 1) * f.pageSize)).take f.pageSize ≠ [] := by
      intro h0
      rw [h0] at hne
      exact hne rfl
    have hisE : (((sortRows f.sort (matchedRows db u sq stq sfq cats hide)).drop
        ((f.page - 1) * f.pageSize)).take f.pageSize).isEmpty = false := by
      cases hE : (((sortRows f.sort (matchedRows db u sq stq sfq cats hide)).drop
          ((f.page - 1) * f.pageSize)).take f.pageSize).isEmpty
      · rfl
      · exact absurd (List.isEmpty_iff.mp hE) hpr
    obtain ⟨r, hrmem⟩ := List.exists_mem_of_ne_nil _ hpr
    have hrm : r ∈ matchedRows db u sq stq sfq cats hide :=
      (mem_sortRows _ _ _).mp (List.drop_subset _ _ (List.take_subset _ _ hrmem))
    have hlen : (matchedRows db u sq stq sfq cats hide).length ≠ 0 := by
      intro h0
      rw [List.length_eq_zero] at h0
      rw [h0] at hrm
      exact List.not_mem_nil r hrm
    rw [hmd, hisE]
    rw [if_neg (by decide)]
    unfold calculateMetadata
    rw [if_neg (by simpa using hlen)]
  · intro hnil
    rw [hrows] at hnil
    have hpr := List.map_eq_nil_iff.mp hnil
    have hisE := List.isEmpty_iff.mpr hpr
    rw [hmd, hisE]
    rfl

theorem getAll_pagination_witness :
    (getAll dbTwoCards 1 "" "" "" [] false ⟨1, 20, "id"⟩).2 = ⟨1, 20, 1, 2⟩ ∧
    (getAll dbOneCard 1 "" "" "" [] false ⟨2, 1, "id"⟩).2 = ⟨0, 0, 0, 0⟩ :=
  ⟨(getAll_pagination dbTwoCards 1 "" "" "" [] false ⟨1, 20, "id"⟩
      (by decide) (by decide)).2.2.1 (by decide),
   (getAll_pagination dbOneCard 1 "" "" "" [] false ⟨2, 1, "id"⟩
      (by decide) (by decide)).2.2.2 (by decide)⟩

end Flashcards
